import Mathlib

/-!
Verification of the streaming tar resharding pipeline
(src/tarsplit.py, src/prepare.py, src/prepare_repo.py).

The shard writer resplit_tars is embedded as a fold over the entry stream:
the Python generator keeps, across output files, the last (info, fileobj)
pair pulled from the stream (the pending entry), and the fold makes that
carry-over explicit in a state record.  The metadata subset filter
build_subsets and the manifest builder build_manifest are embedded as
recursive functions over the record stream and the directory listing.
-/

namespace PeoplesSpeech

/-- One tar member as yielded by tqdm_tar_iter: the TarInfo fields the
writer consults (name, size), plus whether tf.extractfile returned a
payload reader (true for regular files, false for directories and other
members, for which extractfile returns None). -/
structure Entry where
  name : String
  size : Nat
  regular : Bool
deriving DecidableEq

/-- tarfile.BLOCKSIZE: the 512-byte tar block. -/
def BLOCKSIZE : Nat := 512

/-- tarfile.RECORDSIZE: on close, tarfile pads the archive with zero bytes
up to a multiple of this record size (20 blocks). -/
def RECORDSIZE : Nat := 10240

/-- Round s up to the next multiple of b. -/
def padTo (b s : Nat) : Nat := s + (b - s % b) % b

/-- One output shard: its sequential index n (its path is
"{split}_{n:06d}.tar" under dst), the members written into it in order,
and the final value of tf.offset when it was closed. -/
structure Shard where
  idx : Nat
  entries : List Entry
  offset : Nat
deriving DecidableEq

/-- tarfile.TarFile.close writes two all-zero trailer blocks and then pads
the file to a multiple of RECORDSIZE: the on-disk size of a closed shard. -/
def serializedSize (sh : Shard) : Nat := padTo RECORDSIZE (sh.offset + 2 * BLOCKSIZE)

/-- How far tarfile.TarFile.addfile advances tf.offset: one header block,
plus the payload rounded up to a block boundary when a payload reader is
present (addfile writes no data when fileobj is None). -/
def addfileAdvance (hdr blk : Nat) (e : Entry) : Nat :=
  hdr + (if e.regular then padTo blk e.size else 0)

/-- The loop state of resplit_tars made explicit: the shards already
closed (each was yielded as it was closed), the shard currently open, and,
as observable history, one event per closed shard: the closed shard paired
with the entry whose size check broke the inner loop (that entry becomes
the pending carry-over written at the top of the next shard). -/
structure SplitState where
  closed : List Shard
  cur : Shard
  events : List (Shard × Entry)
deriving DecidableEq

/-- One pull of the inner loop of resplit_tars.  With size = hdr + e.size,
if tf.offset + size > target the inner loop breaks: the current shard is
closed (and yielded) and a new shard is opened whose first write is the
pending entry - but the carry-over write is guarded by
"info is not None and fileobj is not None", so a pending entry without a
payload reader (a non-regular member) is skipped.  Otherwise the entry is
added to the open shard by tf.addfile. -/
def stepEntry (hdr blk target : Nat) (st : SplitState) (e : Entry) : SplitState :=
  if target < st.cur.offset + (hdr + e.size) then
    ⟨st.closed ++ [st.cur],
     ⟨st.cur.idx + 1,
      if e.regular then [e] else [],
      if e.regular then addfileAdvance hdr blk e else 0⟩,
     st.events ++ [(st.cur, e)]⟩
  else
    ⟨st.closed,
     ⟨st.cur.idx, st.cur.entries ++ [e], st.cur.offset + addfileAdvance hdr blk e⟩,
     st.events⟩

/-- Run the whole generator: fold every entry of the combined source
stream (iter_tars yields all members of every source tar, in order)
through the inner-loop step, starting from shard index 0 with an empty
open shard. -/
def runState (hdr blk target : Nat) (stream : List Entry) : SplitState :=
  stream.foldl (stepEntry hdr blk target) ⟨[], ⟨0, [], 0⟩, []⟩

/-- The shards produced, in yield order: every closed shard was yielded
inside the loop, and when the stream is exhausted the for/else break
leaves the loop and the final "yield out_path" emits the still-open last
shard exactly once. -/
def runSplit (hdr blk target : Nat) (stream : List Entry) : List Shard :=
  (runState hdr blk target stream).closed ++ [(runState hdr blk target stream).cur]

/-- resplit_tars from src/tarsplit.py with the source tars abstracted to
their combined entry stream; target_size = split_max - tarfile.BLOCKSIZE. -/
def resplit_tars (split_max : Nat) (stream : List Entry) : List Shard :=
  runSplit BLOCKSIZE BLOCKSIZE (split_max - BLOCKSIZE) stream

/-- The close events of a resplit_tars run: one per non-final shard. -/
def resplit_events (split_max : Nat) (stream : List Entry) : List (Shard × Entry) :=
  (runState BLOCKSIZE BLOCKSIZE (split_max - BLOCKSIZE) stream).events

/-- Concatenation, in shard-index order, of the entries written into each
shard. -/
def shardsEntries : List Shard → List Entry
  | [] => []
  | s :: rest => s.entries ++ shardsEntries rest

/-- One clip row of a training_data mapping: the tuple
(duration_ms, label, name, raw_label) produced by zip in build_subsets. -/
structure Clip where
  duration_ms : Nat
  label : String
  name : String
  raw_label : String
deriving DecidableEq

/-- The training_data mapping of one metadata line: one value sequence per
column, in the fixed train_keys order used by build_subsets. -/
structure TrainingData where
  duration_ms : List Nat
  label : List String
  name : List String
  raw_label : List String
deriving DecidableEq

/-- Python zip over the four column sequences: truncates to the shortest. -/
def zip4 : List Nat → List String → List String → List String → List Clip
  | d :: ds, l :: ls, n :: ns, r :: rs => ⟨d, l, n, r⟩ :: zip4 ds ls ns rs
  | _, _, _, _ => []

/-- zip(*(train[k] for k in train_keys)) for one record. -/
def clipsOf (t : TrainingData) : List Clip :=
  zip4 t.duration_ms t.label t.name t.raw_label

/-- dict(zip(train_keys, zip(*valid))): rebuild the four columns from the
surviving clip tuples. -/
def dataOfClips (cs : List Clip) : TrainingData :=
  ⟨cs.map Clip.duration_ms, cs.map Clip.label, cs.map Clip.name, cs.map Clip.raw_label⟩

/-- The inner loop of build_subsets over one record's clips, threading the
todo set: a clip whose name is in the first shard's name set filenames is
kept and its name removed from todo; set.remove raises KeyError (modelled
as none) when the name is not in todo, i.e. when a reference name is
matched a second time. -/
def filterClips (filenames : List String) : List Clip → List String → Option (List Clip × List String)
  | [], todo => some ([], todo)
  | c :: cs, todo =>
    if c.name ∈ filenames then
      if c.name ∈ todo then
        match filterClips filenames cs (todo.erase c.name) with
        | some (v, todo2) => some (c :: v, todo2)
        | none => none
      else none
    else filterClips filenames cs todo

/-- build_subsets from src/prepare.py over one split, abstracted to the
record stream: returns the records written to the output file, a flag
recording whether the pass aborted with a KeyError (in which case the
written records are the prefix emitted before the abort), and the final
todo set of still-unmatched reference names. -/
def build_subsets (filenames : List String) : List TrainingData → List String → List TrainingData × Bool × List String
  | [], todo => ([], false, todo)
  | t :: ts, todo =>
    match filterClips filenames (clipsOf t) todo with
    | none => ([], true, todo)
    | some (valid, todo2) =>
      let rest := build_subsets filenames ts todo2
      if valid.isEmpty then rest
      else (dataOfClips valid :: rest.1, rest.2.1, rest.2.2)

/-- The subset filter as the spec states it (section 4.3): keep, per
record, exactly the clips whose name is in the reference set; drop records
with no surviving clip; re-emit the rest with every column shortened to
the surviving positions. -/
def subsetFilterSpec (filenames : List String) (stream : List TrainingData) : List TrainingData :=
  stream.filterMap fun t =>
    if ((clipsOf t).filter fun c => decide (c.name ∈ filenames)).isEmpty then none
    else some (dataOfClips ((clipsOf t).filter fun c => decide (c.name ∈ filenames)))

/-- All clips of a record stream, in order. -/
def allClips : List TrainingData → List Clip
  | [] => []
  | t :: ts => clipsOf t ++ allClips ts

/-- The clip names of the stream that hit the reference set, in order:
exactly the names on which build_subsets calls todo.remove. -/
def matchedNames (filenames : List String) (stream : List TrainingData) : List String :=
  ((allClips stream).map Clip.name).filter fun n => decide (n ∈ filenames)

/-- Remove each of the given names from the todo set, in order. -/
def eraseAll (todo : List String) : List String → List String
  | [] => todo
  | n :: ns => eraseAll (todo.erase n) ns

/-- A filesystem path as its components. -/
abbrev FsPath := List String

/-- os.path.relpath(path, repo_dir) for a path lying under repo_dir. -/
def norm_path (repo_dir p : FsPath) : FsPath := p.drop repo_dir.length

/-- One value of the manifest's splits mapping, as build_manifest builds
it: the full metadata path, the first-shard metadata path, the shard
paths, and the path-to-digest mapping in insertion order. -/
structure SplitManifest where
  json_full : FsPath
  json_first : FsPath
  tars : List FsPath
  hashes : List (FsPath × String)
deriving DecidableEq

/-- The per-split body of build_manifest from src/prepare.py: names is the
directory listing of the split directory exactly as split_path.iterdir()
returned it (iterdir applies no ordering), and hash_path abstracts the
streaming sha256 digest of a file's contents. -/
def build_manifest_split (repo_dir : FsPath) (hash_path : FsPath → String)
    (json_path json0_path : FsPath) (names : List FsPath) : SplitManifest :=
  ⟨norm_path repo_dir json_path,
   norm_path repo_dir json0_path,
   names.map (norm_path repo_dir),
   (names ++ [json_path, json0_path]).map fun p => (norm_path repo_dir p, hash_path p)⟩

/-! ### Helper lemmas about the shard writer -/

lemma shardsEntries_append (a b : List Shard) :
    shardsEntries (a ++ b) = shardsEntries a ++ shardsEntries b := by
  induction a with
  | nil => simp [shardsEntries]
  | cons s rest ih => simp [shardsEntries, ih, List.append_assoc]

lemma foldl_closed_extend (hdr blk target : Nat) (l : List Entry) :
    ∀ st : SplitState,
      ∃ t, (l.foldl (stepEntry hdr blk target) st).closed = st.closed ++ t := by
  induction l with
  | nil => intro st; exact ⟨[], by simp⟩
  | cons e l ih =>
    intro st
    obtain ⟨t, ht⟩ := ih (stepEntry hdr blk target st e)
    simp only [List.foldl_cons] at *
    rw [ht]
    by_cases hc : target < st.cur.offset + (hdr + e.size)
    · exact ⟨[st.cur] ++ t, by simp [stepEntry, if_pos hc]⟩
    · exact ⟨t, by simp [stepEntry, if_neg hc]⟩

lemma foldl_entries_regular (hdr blk target : Nat) (l : List Entry) :
    ∀ st : SplitState, (∀ e ∈ l, e.regular = true) →
      shardsEntries (l.foldl (stepEntry hdr blk target) st).closed
          ++ (l.foldl (stepEntry hdr blk target) st).cur.entries
        = shardsEntries st.closed ++ st.cur.entries ++ l := by
  induction l with
  | nil => intro st _; simp
  | cons e l ih =>
    intro st hreg
    have he : e.regular = true := hreg e (List.mem_cons_self _ _)
    simp only [List.foldl_cons]
    rw [ih _ (fun x hx => hreg x (List.mem_cons_of_mem _ hx))]
    by_cases hc : target < st.cur.offset + (hdr + e.size)
    · simp [stepEntry, if_pos hc, he, shardsEntries_append, shardsEntries]
    · simp [stepEntry, if_neg hc, shardsEntries]

lemma foldl_idx (hdr blk target : Nat) (l : List Entry) :
    ∀ st : SplitState,
      st.closed.map Shard.idx = List.range st.cur.idx →
      st.cur.idx = st.closed.length →
      (l.foldl (stepEntry hdr blk target) st).closed.map Shard.idx
          = List.range (l.foldl (stepEntry hdr blk target) st).cur.idx ∧
        (l.foldl (stepEntry hdr blk target) st).cur.idx
          = (l.foldl (stepEntry hdr blk target) st).closed.length := by
  induction l with
  | nil => intro st h1 h2; exact ⟨h1, h2⟩
  | cons e l ih =>
    intro st h1 h2
    simp only [List.foldl_cons]
    by_cases hc : target < st.cur.offset + (hdr + e.size)
    · refine ih _ ?_ ?_ <;> simp [stepEntry, if_pos hc, h1, h2, List.range_succ]
    · refine ih _ ?_ ?_ <;> simp [stepEntry, if_neg hc, h1, h2]

lemma foldl_events (hdr blk target : Nat) (l : List Entry) :
    ∀ st : SplitState,
      st.events.map Prod.fst = st.closed →
      (∀ p ∈ st.events, target < p.1.offset + (hdr + p.2.size)) →
      (l.foldl (stepEntry hdr blk target) st).events.map Prod.fst
          = (l.foldl (stepEntry hdr blk target) st).closed ∧
        ∀ p ∈ (l.foldl (stepEntry hdr blk target) st).events,
          target < p.1.offset + (hdr + p.2.size) := by
  induction l with
  | nil => intro st h1 h2; exact ⟨h1, h2⟩
  | cons e l ih =>
    intro st h1 h2
    simp only [List.foldl_cons]
    by_cases hc : target < st.cur.offset + (hdr + e.size)
    · refine ih _ ?_ ?_
      · simp [stepEntry, if_pos hc, h1]
      · intro p hp
        simp only [stepEntry, if_pos hc, List.mem_append, List.mem_singleton] at hp
        rcases hp with hp | hp
        · exact h2 p hp
        · subst hp; exact hc
    · refine ih _ ?_ ?_
      · simp [stepEntry, if_neg hc, h1]
      · intro p hp
        simp only [stepEntry, if_neg hc] at hp
        exact h2 p hp

/-- For a stream of regular-file entries (every member has a payload
reader), the resharding loses nothing: the concatenation of the shard
contents is the input stream.  The carry-over guard can only drop an
entry whose extractfile result is None. -/
theorem resplit_tars_no_loss_of_regular (split_max : Nat) (stream : List Entry)
    (h : ∀ e ∈ stream, e.regular = true) :
    shardsEntries (resplit_tars split_max stream) = stream := by
  have := foldl_entries_regular BLOCKSIZE BLOCKSIZE (split_max - BLOCKSIZE) stream
    ⟨[], ⟨0, [], 0⟩, []⟩ h
  simp only [shardsEntries, List.append_nil, List.nil_append] at this
  simpa [resplit_tars, runSplit, runState, shardsEntries_append, shardsEntries] using this

/-! ### Claims about the shard writer -/

/-- Claim C1 (code bug evidence): resplit_tars does not preserve the entry
stream on every input.  The carry-over write at the top of a new shard is
guarded by "info is not None and fileobj is not None", and extractfile
returns None for a non-regular member, so a directory entry that is pulled
just past a shard boundary is silently dropped.  Here the stream is two
512-byte regular files followed by a directory entry, and split_max = 2561
is above the minimum viable threshold (512 header + 1024 trailer reserve +
1024 largest framed entry = 2560 < 2561): the directory entry appears in
no shard. -/
theorem resplit_tars_drops_nonregular_pending :
    shardsEntries (resplit_tars 2561
        [⟨"a.flac", 512, true⟩, ⟨"b.flac", 512, true⟩, ⟨"d/", 0, false⟩])
      = [⟨"a.flac", 512, true⟩, ⟨"b.flac", 512, true⟩] ∧
    shardsEntries (resplit_tars 2561
        [⟨"a.flac", 512, true⟩, ⟨"b.flac", 512, true⟩, ⟨"d/", 0, false⟩])
      ≠ [⟨"a.flac", 512, true⟩, ⟨"b.flac", 512, true⟩, ⟨"d/", 0, false⟩] := by
  decide

/-- Claim C2 (code bug evidence): the on-disk size of a non-final shard
can exceed split_max.  The writer reserves only tarfile.BLOCKSIZE = 512
bytes (target_size = split_max - 512), but closing writes two 512-byte
zero trailer blocks and pads to RECORDSIZE = 10240.  With split_max =
10240 and two 9216-byte entries the first (non-final) shard fills to
offset 9728 and serializes to 20480 bytes on disk. -/
theorem resplit_tars_size_bound_violated :
    (resplit_tars 10240 [⟨"a", 9216, true⟩, ⟨"b", 9216, true⟩]).length = 2 ∧
    (resplit_tars 10240 [⟨"a", 9216, true⟩, ⟨"b", 9216, true⟩]).map serializedSize
      = [20480, 20480] ∧
    10240 < 20480 := by
  decide

/-- Claim C3 (counterexample): resplit_tars performs no eager validation
and defines no ConfigurationError.  With split_max = 1024 (at most the
threshold for the 20000-byte entry) it still produces output: an empty
shard 0 is created and yielded, then the entry is written unconditionally
into shard 1 (offset 20992, far beyond split_max), and the run terminates
without error. -/
theorem resplit_tars_no_configuration_error :
    resplit_tars 1024 [⟨"a", 20000, true⟩]
      = [⟨0, [], 0⟩, ⟨1, [⟨"a", 20000, true⟩], 20992⟩] := by
  decide

/-- Claim C3 (amended): when the target size is too small for even the
first entry, resplit_tars does not fail eagerly and does not loop forever:
it closes shard 0 empty (and still yields it), carries the entry over, and
produces at least two shards in total. -/
theorem resplit_tars_undersized_target_still_produces
    (split_max : Nat) (e : Entry) (rest : List Entry)
    (h : split_max - BLOCKSIZE < BLOCKSIZE + e.size) :
    (resplit_tars split_max (e :: rest)).head? = some ⟨0, [], 0⟩ ∧
    2 ≤ (resplit_tars split_max (e :: rest)).length := by
  obtain ⟨t, ht⟩ := foldl_closed_extend BLOCKSIZE BLOCKSIZE (split_max - BLOCKSIZE) rest
    (stepEntry BLOCKSIZE BLOCKSIZE (split_max - BLOCKSIZE) ⟨[], ⟨0, [], 0⟩, []⟩ e)
  have hstep : (stepEntry BLOCKSIZE BLOCKSIZE (split_max - BLOCKSIZE)
      ⟨[], ⟨0, [], 0⟩, []⟩ e).closed = [⟨0, [], 0⟩] := by
    simp [stepEntry, h]
  constructor
  · simp [resplit_tars, runSplit, runState, List.foldl_cons, ht, hstep]
  · have hlen : (resplit_tars split_max (e :: rest)).length = t.length + 2 := by
      simp [resplit_tars, runSplit, runState, List.foldl_cons, ht, hstep]
    omega

/-- Witness for the amended Claim C3 at split_max = 1024 and a single
20000-byte entry. -/
theorem resplit_tars_undersized_target_still_produces_witness :
    (1024 - BLOCKSIZE < BLOCKSIZE + 20000) ∧
    ((resplit_tars 1024 [⟨"a", 20000, true⟩]).head? = some ⟨0, [], 0⟩ ∧
      2 ≤ (resplit_tars 1024 [⟨"a", 20000, true⟩]).length) :=
  ⟨by decide,
    resplit_tars_undersized_target_still_produces 1024 ⟨"a", 20000, true⟩ [] (by decide)⟩

/-- Claim C4: no shard is closed early.  Every close of a non-final shard
is recorded as an event pairing the closed shard with the entry whose size
check broke the inner loop; the events correspond one to one, in order,
with the non-final shards, and each records that writing that entry would
have pushed the shard's offset past target_size = split_max - BLOCKSIZE
(the approximate framed size 512 + entry.size is the one the code tests). -/
theorem resplit_tars_closes_only_when_blocked (split_max : Nat) (stream : List Entry) :
    (resplit_events split_max stream).map Prod.fst
        = (resplit_tars split_max stream).dropLast ∧
    ∀ p ∈ resplit_events split_max stream,
      split_max - BLOCKSIZE < p.1.offset + (BLOCKSIZE + p.2.size) := by
  have h := foldl_events BLOCKSIZE BLOCKSIZE (split_max - BLOCKSIZE) stream
    ⟨[], ⟨0, [], 0⟩, []⟩ (by simp) (by simp)
  refine ⟨?_, fun p hp => h.2 p hp⟩
  simp [resplit_tars, resplit_events, runSplit, runState, h.1]

/-- Claim C5 (counterexample): on an empty source archive set the code
still opens an output file for shard 0 before first touching the stream,
so one empty shard is created and its path is yielded: the produced shard
list is not empty. -/
theorem resplit_tars_empty_input_yields_a_shard :
    resplit_tars 10240 [] = [⟨0, [], 0⟩] ∧ resplit_tars 10240 [] ≠ [] := by
  decide

/-- Claim C5 (amended): on an empty entry stream, resplit_tars produces
exactly one shard: an empty archive whose path is yielded once by the
final yield, and terminates without error. -/
theorem resplit_tars_empty_input (split_max : Nat) :
    resplit_tars split_max [] = [⟨0, [], 0⟩] := rfl

/-- Claim C6 (counterexample): with entry payload sizes
[10, 90, 10, 90, 10], target size 150 and a per-entry framed overhead of
50 bytes, the algorithm does not produce three shards: every second entry
fails the size check (e.g. 60 + 50 + 90 > 150), so each entry is carried
into its own shard. -/
theorem reshard_example_not_three_shards :
    (runSplit 50 1 150
        [⟨"e1", 10, true⟩, ⟨"e2", 90, true⟩, ⟨"e3", 10, true⟩,
         ⟨"e4", 90, true⟩, ⟨"e5", 10, true⟩]).length ≠ 3 := by
  decide

/-- Claim C6 (amended): for the stream of 5 entries sized
[10, 90, 10, 90, 10] with target size 150 and per-entry framed overhead
50, the algorithm produces exactly five shards, each holding one entry. -/
theorem reshard_example_five_singleton_shards :
    (runSplit 50 1 150
        [⟨"e1", 10, true⟩, ⟨"e2", 90, true⟩, ⟨"e3", 10, true⟩,
         ⟨"e4", 90, true⟩, ⟨"e5", 10, true⟩]).map (fun s => s.entries.map Entry.name)
      = [["e1"], ["e2"], ["e3"], ["e4"], ["e5"]] := by
  decide

/-- Claim C7: each produced shard path is yielded exactly once.  The shard
list (in yield order) carries the path indices 0, 1, ..., k-1 in order, so
the paths are pairwise distinct: the final post-loop yield emits the one
shard whose in-loop yield was skipped by the for/else break, never a
duplicate, and every yielded path is a closed shard. -/
theorem resplit_tars_yields_each_shard_once (split_max : Nat) (stream : List Entry) :
    (resplit_tars split_max stream).map Shard.idx
        = List.range (resplit_tars split_max stream).length ∧
    ((resplit_tars split_max stream).map Shard.idx).Nodup := by
  have h := foldl_idx BLOCKSIZE BLOCKSIZE (split_max - BLOCKSIZE) stream
    ⟨[], ⟨0, [], 0⟩, []⟩ (by simp) (by simp)
  have hmain : (resplit_tars split_max stream).map Shard.idx
      = List.range (resplit_tars split_max stream).length := by
    simp [resplit_tars, runSplit, runState, h.1, h.2, List.range_succ]
  exact ⟨hmain, by rw [hmain]; exact List.nodup_range _⟩

/-! ### Helper lemmas about the subset filter -/

lemma mem_eraseAll (n : String) : ∀ (names todo : List String),
    n ∈ todo → n ∉ names → n ∈ eraseAll todo names := by
  intro names
  induction names with
  | nil => intro todo h1 _; exact h1
  | cons m ms ih =>
    intro todo h1 h2
    simp only [eraseAll]
    refine ih _ ?_ (fun hm => h2 (List.mem_cons_of_mem _ hm))
    exact (List.mem_erase_of_ne (fun he => h2 (by simp [he]))).mpr h1

lemma eraseAll_append : ∀ (a b todo : List String),
    eraseAll todo (a ++ b) = eraseAll (eraseAll todo a) b := by
  intro a
  induction a with
  | nil => intro b todo; rfl
  | cons m ms ih => intro b todo; simp only [List.cons_append, eraseAll]; exact ih b _

lemma filterClips_eq (filenames : List String) : ∀ (cs : List Clip) (todo : List String),
    (∀ n ∈ (cs.map Clip.name).filter (fun n => decide (n ∈ filenames)), n ∈ todo) →
    ((cs.map Clip.name).filter (fun n => decide (n ∈ filenames))).Nodup →
    filterClips filenames cs todo
      = some ((cs.filter fun c => decide (c.name ∈ filenames)),
          eraseAll todo ((cs.map Clip.name).filter (fun n => decide (n ∈ filenames)))) := by
  intro cs
  induction cs with
  | nil => intro todo _ _; rfl
  | cons c cs ih =>
    intro todo hmem hnd
    by_cases hf : c.name ∈ filenames
    · have hmatch : ((c :: cs).map Clip.name).filter (fun n => decide (n ∈ filenames))
          = c.name :: (cs.map Clip.name).filter (fun n => decide (n ∈ filenames)) := by
        simp [hf]
      rw [hmatch] at hmem hnd
      have hmem_c : c.name ∈ todo := hmem c.name (List.mem_cons_self _ _)
      have hnotin : c.name ∉ (cs.map Clip.name).filter (fun n => decide (n ∈ filenames)) :=
        (List.nodup_cons.mp hnd).1
      have hsub : ∀ n ∈ (cs.map Clip.name).filter (fun n => decide (n ∈ filenames)),
          n ∈ todo.erase c.name := by
        intro n hn
        have hne : n ≠ c.name := by
          intro he; rw [he] at hn; exact hnotin hn
        exact (List.mem_erase_of_ne hne).mpr (hmem n (List.mem_cons_of_mem _ hn))
      have hrec := ih (todo.erase c.name) hsub (List.nodup_cons.mp hnd).2
      simp only [filterClips, if_pos hf, if_pos hmem_c, hrec]
      simp [hf, hmatch, eraseAll]
    · have hmatch : ((c :: cs).map Clip.name).filter (fun n => decide (n ∈ filenames))
          = (cs.map Clip.name).filter (fun n => decide (n ∈ filenames)) := by
        simp [hf]
      rw [hmatch] at hmem hnd
      simp only [filterClips, if_neg hf]
      rw [ih todo hmem hnd]
      simp [hf, hmatch]

lemma subsetFilterSpec_cons (filenames : List String) (t : TrainingData)
    (ts : List TrainingData) :
    subsetFilterSpec filenames (t :: ts)
      = if ((clipsOf t).filter fun c => decide (c.name ∈ filenames)).isEmpty
        then subsetFilterSpec filenames ts
        else dataOfClips ((clipsOf t).filter fun c => decide (c.name ∈ filenames))
              :: subsetFilterSpec filenames ts := by
  by_cases he : ((clipsOf t).filter fun c => decide (c.name ∈ filenames)).isEmpty = true
  · rw [if_pos he]
    exact List.filterMap_cons_none (by rw [if_pos he])
  · rw [if_neg he]
    exact List.filterMap_cons_some (by rw [if_neg he])

lemma build_subsets_eq (filenames : List String) : ∀ (ts : List TrainingData) (todo : List String),
    (∀ n ∈ matchedNames filenames ts, n ∈ todo) →
    (matchedNames filenames ts).Nodup →
    build_subsets filenames ts todo
      = (subsetFilterSpec filenames ts, false, eraseAll todo (matchedNames filenames ts)) := by
  intro ts
  induction ts with
  | nil => intro todo _ _; rfl
  | cons t ts ih =>
    intro todo hmem hnd
    have hsplit : matchedNames filenames (t :: ts)
        = ((clipsOf t).map Clip.name).filter (fun n => decide (n ∈ filenames))
            ++ matchedNames filenames ts := by
      simp [matchedNames, allClips, List.filter_append]
    rw [hsplit] at hmem hnd ⊢
    obtain ⟨hnd1, hnd2, hdisj⟩ := List.nodup_append.mp hnd
    have hfc := filterClips_eq filenames (clipsOf t) todo
      (fun n hn => hmem n (List.mem_append_left _ hn)) hnd1
    have hih := ih (eraseAll todo ((clipsOf t).map Clip.name |>.filter (fun n => decide (n ∈ filenames))))
      (fun n hn =>
        mem_eraseAll n _ _ (hmem n (List.mem_append_right _ hn)) (fun hc => hdisj hc hn))
      hnd2
    rw [subsetFilterSpec_cons, eraseAll_append]
    simp only [build_subsets, hfc, hih]
    by_cases he : ((clipsOf t).filter fun c => decide (c.name ∈ filenames)).isEmpty = true
    · rw [if_pos he, if_pos he]
    · rw [if_neg he, if_neg he]

/-! ### Claims about the subset filter -/

/-- Claim C8 (counterexample): the subset filter is not total.  For the
single record with columns name=[a, a] (a duplicate matched name) and
reference set containing a, build_subsets does not emit the record with
its surviving tuples as the claim demands: the second todo.remove of the
same name raises KeyError, so nothing is emitted and the pass aborts. -/
theorem build_subsets_duplicate_name_not_emitted :
    (build_subsets ["a"] [⟨[1, 2], ["l1", "l2"], ["a", "a"], ["r1", "r2"]⟩] ["a"]).1
        ≠ subsetFilterSpec ["a"] [⟨[1, 2], ["l1", "l2"], ["a", "a"], ["r1", "r2"]⟩] ∧
    (build_subsets ["a"] [⟨[1, 2], ["l1", "l2"], ["a", "a"], ["r1", "r2"]⟩] ["a"]).2.1
        = true := by
  decide

/-- Claim C8 (amended): provided every reference name is matched by at
most one clip tuple across the metadata stream, the subset filter keeps,
per record, exactly the column-tuples whose name is in the reference set:
records with no surviving tuple are dropped, the rest are re-emitted with
all four columns shortened together to the surviving positions (so the
emitted columns have equal length), and no KeyError abort occurs. -/
theorem build_subsets_matches_spec_filter (filenames : List String)
    (stream : List TrainingData)
    (h : (matchedNames filenames stream).Nodup) :
    (build_subsets filenames stream filenames).1 = subsetFilterSpec filenames stream ∧
    (build_subsets filenames stream filenames).2.1 = false ∧
    ∀ t ∈ (build_subsets filenames stream filenames).1,
      t.duration_ms.length = t.name.length ∧ t.label.length = t.name.length ∧
        t.raw_label.length = t.name.length := by
  have hm : ∀ n ∈ matchedNames filenames stream, n ∈ filenames := by
    intro n hn
    simp only [matchedNames, List.mem_filter] at hn
    exact of_decide_eq_true hn.2
  have heq := build_subsets_eq filenames stream filenames hm h
  refine ⟨by rw [heq], by rw [heq], ?_⟩
  intro t ht
  rw [heq] at ht
  simp only [subsetFilterSpec, List.mem_filterMap] at ht
  obtain ⟨a, -, ha⟩ := ht
  by_cases he : ((clipsOf a).filter fun c => decide (c.name ∈ filenames)).isEmpty
  · simp [he] at ha
  · simp only [he, if_neg, Bool.false_eq_true, not_false_iff, if_false,
      Option.some.injEq] at ha
    subst ha
    simp [dataOfClips]

/-- Witness for the amended Claim C8: the spec's own example, a record
with names [a, b, c] filtered by the reference set [a, c]. -/
theorem build_subsets_matches_spec_filter_witness :
    (matchedNames ["a", "c"]
        [⟨[1, 2, 3], ["l1", "l2", "l3"], ["a", "b", "c"], ["r1", "r2", "r3"]⟩]).Nodup ∧
    ((build_subsets ["a", "c"]
          [⟨[1, 2, 3], ["l1", "l2", "l3"], ["a", "b", "c"], ["r1", "r2", "r3"]⟩]
          ["a", "c"]).1
        = subsetFilterSpec ["a", "c"]
            [⟨[1, 2, 3], ["l1", "l2", "l3"], ["a", "b", "c"], ["r1", "r2", "r3"]⟩] ∧
      (build_subsets ["a", "c"]
          [⟨[1, 2, 3], ["l1", "l2", "l3"], ["a", "b", "c"], ["r1", "r2", "r3"]⟩]
          ["a", "c"]).2.1 = false ∧
      ∀ t ∈ (build_subsets ["a", "c"]
          [⟨[1, 2, 3], ["l1", "l2", "l3"], ["a", "b", "c"], ["r1", "r2", "r3"]⟩]
          ["a", "c"]).1,
        t.duration_ms.length = t.name.length ∧ t.label.length = t.name.length ∧
          t.raw_label.length = t.name.length) :=
  ⟨by decide,
    build_subsets_matches_spec_filter ["a", "c"]
      [⟨[1, 2, 3], ["l1", "l2", "l3"], ["a", "b", "c"], ["r1", "r2", "r3"]⟩] (by decide)⟩

/-- Claim C10: when one reference name is matched by more than one clip
tuple (here by two consecutive records), build_subsets aborts with an
unhandled KeyError from todo.remove after having written the prefix of the
output emitted so far: the first record is written, the abort flag is set,
and the second record is never emitted. -/
theorem build_subsets_duplicate_aborts_with_prefix :
    build_subsets ["a"]
        [⟨[5], ["l1"], ["a"], ["r1"]⟩, ⟨[6], ["l2"], ["a"], ["r2"]⟩] ["a"]
      = ([⟨[5], ["l1"], ["a"], ["r1"]⟩], true, []) := by
  decide

/-! ### Claims about the manifest builder -/

/-- Claim C9 (counterexample): build_manifest records the shard paths in
the order split_path.iterdir() returned them, and iterdir applies no
ordering, so the recorded list need not be in shard-index order: with the
listing enumerating shard 000001 before shard 000000, the manifest keeps
that order. -/
theorem build_manifest_split_keeps_listing_order :
    (build_manifest_split ["repo"] (fun _ => "h")
        ["repo", "data", "clean.json"] ["repo", "data", "clean_000000.json"]
        [["repo", "data", "clean", "clean_000001.tar"],
         ["repo", "data", "clean", "clean_000000.tar"]]).tars
      = [["data", "clean", "clean_000001.tar"], ["data", "clean", "clean_000000.tar"]] ∧
    (build_manifest_split ["repo"] (fun _ => "h")
        ["repo", "data", "clean.json"] ["repo", "data", "clean_000000.json"]
        [["repo", "data", "clean", "clean_000001.tar"],
         ["repo", "data", "clean", "clean_000000.tar"]]).tars
      ≠ [["data", "clean", "clean_000000.tar"], ["data", "clean", "clean_000001.tar"]] := by
  decide

/-- Claim C9 (amended): for every split, the manifest entry records the
full metadata path, the filtered metadata path, the shard paths in
directory-enumeration order, and a digest mapping keyed by exactly those
listed paths (every shard, then both metadata files); and when every
hashed file lies under the repository root, each recorded path is its
original path made relative to that root. -/
theorem build_manifest_split_correct (repo_dir : FsPath) (hash_path : FsPath → String)
    (json_path json0_path : FsPath) (names : List FsPath)
    (h : ∀ p ∈ names ++ [json_path, json0_path], p.take repo_dir.length = repo_dir) :
    (build_manifest_split repo_dir hash_path json_path json0_path names).tars
        = names.map (norm_path repo_dir) ∧
    (build_manifest_split repo_dir hash_path json_path json0_path names).hashes.map Prod.fst
        = (build_manifest_split repo_dir hash_path json_path json0_path names).tars
            ++ [(build_manifest_split repo_dir hash_path json_path json0_path names).json_full,
                (build_manifest_split repo_dir hash_path json_path json0_path names).json_first] ∧
    ∀ p ∈ names ++ [json_path, json0_path], repo_dir ++ norm_path repo_dir p = p := by
  refine ⟨rfl, ?_, ?_⟩
  · simp [build_manifest_split, List.map_map, Function.comp]
  · intro p hp
    calc repo_dir ++ norm_path repo_dir p
        = p.take repo_dir.length ++ p.drop repo_dir.length := by rw [h p hp]; rfl
      _ = p := List.take_append_drop _ _

/-- Witness for the amended Claim C9 on a one-shard split under root
["repo"]. -/
theorem build_manifest_split_correct_witness :
    (∀ p ∈ [["repo", "data", "clean", "clean_000000.tar"]]
          ++ [["repo", "data", "clean.json"], ["repo", "data", "clean_000000.json"]],
        p.take (["repo"] : FsPath).length = ["repo"]) ∧
    ((build_manifest_split ["repo"] (fun _ => "h")
          ["repo", "data", "clean.json"] ["repo", "data", "clean_000000.json"]
          [["repo", "data", "clean", "clean_000000.tar"]]).tars
        = [["repo", "data", "clean", "clean_000000.tar"]].map (norm_path ["repo"]) ∧
      (build_manifest_split ["repo"] (fun _ => "h")
          ["repo", "data", "clean.json"] ["repo", "data", "clean_000000.json"]
          [["repo", "data", "clean", "clean_000000.tar"]]).hashes.map Prod.fst
        = (build_manifest_split ["repo"] (fun _ => "h")
            ["repo", "data", "clean.json"] ["repo", "data", "clean_000000.json"]
            [["repo", "data", "clean", "clean_000000.tar"]]).tars
            ++ [(build_manifest_split ["repo"] (fun _ => "h")
                  ["repo", "data", "clean.json"] ["repo", "data", "clean_000000.json"]
                  [["repo", "data", "clean", "clean_000000.tar"]]).json_full,
                (build_manifest_split ["repo"] (fun _ => "h")
                  ["repo", "data", "clean.json"] ["repo", "data", "clean_000000.json"]
                  [["repo", "data", "clean", "clean_000000.tar"]]).json_first] ∧
      ∀ p ∈ [["repo", "data", "clean", "clean_000000.tar"]]
            ++ [["repo", "data", "clean.json"], ["repo", "data", "clean_000000.json"]],
        ["repo"] ++ norm_path ["repo"] p = p) :=
  ⟨by decide,
    build_manifest_split_correct ["repo"] (fun _ => "h")
      ["repo", "data", "clean.json"] ["repo", "data", "clean_000000.json"]
      [["repo", "data", "clean", "clean_000000.tar"]] (by decide)⟩

end PeoplesSpeech
